import Mathlib

/-!
Verification of the retrieval-augmented dialogue engine of the
`KPMG_home_ass` repository (Part_2): the HTML knowledge-base ingester
(`Part_2/retriever/kb.py`), the similarity retriever (`HtmlKB.search`),
the dialogue orchestrator (`Part_2/orchestrator/service.py` and
`Part_2/orchestrator/utils.py`), the profile data model
(`Part_2/core_models/dto.py`) and the client retry loop
(`Part_2/azure_integration/clients.py`).

Python strings are modelled as Lean `String`/`List Char` (Python `len` and
slicing count code points, as `List Char` does); Python `int` as `Int`/`Nat`;
Python float literals (the score biases 0.75 and 1.08, the backoff base) as
exact rationals `ℚ`; `dict`s as association lists (Python dicts cannot hold
duplicate keys, so association lists are a superset of their behaviour);
fallible constructors as `Option`.  External collaborators (BeautifulSoup,
`json.loads`, the Azure clients, Python's seeded string `hash`) are modelled
by passing in their outcome: the DOM as a list of structured nodes, an LLM
reply as a parse outcome, embedding similarities as a list of rationals and
`hash` as an arbitrary function `String → Int`.
-/

namespace KPMGAss

/-! ## Python string primitives

`str.strip` / `str.lower` / `str.upper` / `str.isdigit`, restricted to the
ASCII range where Lean's `Char.toLower`/`Char.toUpper` agree with Python
(Hebrew letters are unaffected by either). -/

/-- Python `\s` / `str.strip` whitespace, ASCII part. -/
def pyIsSpace (c : Char) : Bool :=
  c = ' ' ∨ c = '\t' ∨ c = '\n' ∨ c = '\r' ∨ c = '\x0b' ∨ c = '\x0c'

/-- Model of `str.strip()` on a character list. -/
def pyStripL (cs : List Char) : List Char :=
  ((cs.dropWhile pyIsSpace).reverse.dropWhile pyIsSpace).reverse

/-- Model of `str.strip()`. -/
def pyStrip (s : String) : String :=
  String.mk (pyStripL s.toList)

/-- Model of `str.lower()` (ASCII case mapping; Hebrew is unchanged by both). -/
def pyLower (s : String) : String :=
  String.mk (s.toList.map Char.toLower)

/-- Model of `str.upper()` (ASCII case mapping). -/
def pyUpper (s : String) : String :=
  String.mk (s.toList.map Char.toUpper)

/-- Model of `str.isdigit()` restricted to ASCII digits (on which Python's
`int(...)` conversion never raises, making the per-field `try/except` of
`_merge_patch` unreachable in the modelled fragment). -/
def pyIsDigit (s : String) : Bool :=
  s.toList ≠ [] ∧ s.toList.all (fun c => '0' ≤ c ∧ c ≤ '9')

/-- Model of `int(s)` for a string of ASCII digits. -/
def strToNat (s : String) : Nat :=
  s.toList.foldl (fun a c => a * 10 + (c.toNat - '0'.toNat)) 0

/-- Substring containment, Python's `sub in s`. -/
def strContains (s sub : String) : Bool :=
  decide (sub.toList <:+: s.toList)

/-- Model of `"; ".join(parts)`-style joining. -/
def joinSep (sep : String) : List String → String
  | [] => ""
  | [x] => x
  | x :: xs => x ++ sep ++ joinSep sep xs

/-! ## Core enums (`Part_2/core_models/enums.py`) -/

/-- Model of `HMO(str, Enum)`. -/
inductive HMO | maccabi | meuhedet | clalit
deriving DecidableEq, Repr

/-- The `.value` of an `HMO` member. -/
def HMO.val : HMO → String
  | .maccabi => "מכבי"
  | .meuhedet => "מאוחדת"
  | .clalit => "כללית"

/-- Model of `Tier(str, Enum)`. -/
inductive Tier | gold | silver | bronze
deriving DecidableEq, Repr

/-- The `.value` of a `Tier` member. -/
def Tier.val : Tier → String
  | .gold => "זהב"
  | .silver => "כסף"
  | .bronze => "ארד"

/-- Model of `Gender(str, Enum)`. -/
inductive Gender | male | female | other | unspecified
deriving DecidableEq, Repr

/-- The `.value` of a `Gender` member. -/
def Gender.val : Gender → String
  | .male => "male"
  | .female => "female"
  | .other => "other"
  | .unspecified => "unspecified"

/-- Model of `Phase(str, Enum)`. -/
inductive Phase | infoCollection | qna
deriving DecidableEq, Repr

/-- Model of `Locale(str, Enum)`. -/
inductive Locale | he | en
deriving DecidableEq, Repr

/-! ## KB data model (`Part_2/retriever/kb.py`, `KBChunk`) -/

/-- Model of `KBChunk`: the atomic retrieval unit. -/
structure KBChunk where
  text : String
  source_uri : String
  hmo : Option HMO
  tier_tags : List String
  /-- The source field is named `section`, a Lean keyword. -/
  sect : Option String
  service : Option String
  kind : String
deriving DecidableEq, Repr

namespace HtmlKB

/-- Model of `HtmlKB._clean`: collapse runs of spaces/tabs and of newlines to single
spaces and strip.  (`html.unescape`, from the Python standard library, is
the identity on the `&`-free strings all claims here involve and is not
re-modelled.)  Implemented on the character list: a run of spaces/tabs
becomes one space, then a run of newlines becomes one space, then strip. -/
def collapseAux (isRun : Char → Bool) (rep : Char) : Bool → List Char → List Char
  | _, [] => []
  | inRun, c :: rest =>
    if isRun c then
      if inRun then collapseAux isRun rep true rest
      else rep :: collapseAux isRun rep true rest
    else c :: collapseAux isRun rep false rest

/-- Replace every maximal run of `isRun` characters by one `rep`. -/
def collapseRuns (isRun : Char → Bool) (rep : Char) (cs : List Char) : List Char :=
  collapseAux isRun rep false cs

/-- Model of `HtmlKB._clean` on a character list. -/
def cleanL (cs : List Char) : List Char :=
  pyStripL (collapseRuns (fun c => c = '\n') ' '
    (collapseRuns (fun c => c = ' ' ∨ c = '\t') ' ' cs))

/-- Model of `HtmlKB._clean` (with `html.unescape` as the identity, see `cleanL`). -/
def clean (s : String) : String :=
  String.mk (cleanL s.toList)

/-! ### Tier splitting (`HtmlKB._split_tiers`)

`re.split(r"(?=(?:זהב|כסף|ארד)\s*[:：])", cell_text)` followed by
`re.match(r"(זהב|כסף|ארד)\s*[:：]\s*(.+)", p, re.S)` on each part. -/

/-- The three Hebrew tier markers. -/
def tierMarkers : List (List Char) := ["זהב".toList, "כסף".toList, "ארד".toList]

/-- Parse a tier marker followed by `\s*` and a colon (`:` or `：`) at the
head of the list; return the marker and the characters after the colon.
This is the body shared by the split lookahead and the per-part match. -/
def markerColon (cs : List Char) : Option (String × List Char) :=
  match cs with
  | a :: b :: c :: rest =>
    if [a, b, c] ∈ tierMarkers then
      match rest.dropWhile pyIsSpace with
      | d :: r => if d = ':' ∨ d = '：' then some (String.mk [a, b, c], r) else none
      | [] => none
    else none
  | _ => none

/-- The zero-width split condition `(?=(?:זהב|כסף|ארד)\s*[:：])`. -/
def startsTier (cs : List Char) : Bool :=
  (markerColon cs).isSome

/-- Segments of `re.split` after the first position: cut before every
position `i ≥ 1` at which the lookahead matches. -/
def spAux : List Char → List (List Char)
  | [] => [[]]
  | c :: rest =>
    if startsTier rest then [c] :: spAux rest
    else
      match spAux rest with
      | [] => [[c]]
      | h :: t => (c :: h) :: t

/-- Model of `re.split(r"(?=(?:זהב|כסף|ארד)\s*[:：])", ·)`: like `spAux`, plus the
empty leading part when the lookahead matches at position 0. -/
def splitParts (cs : List Char) : List (List Char) :=
  if startsTier cs then [] :: spAux cs else spAux cs

/-- Model of `re.match(r"(זהב|כסף|ארד)\s*[:：]\s*(.+)", p, re.S)`, returning
`(m.group(1), m.group(2).strip())`.  The greedy `\s*` followed by `(.+)`
matches whenever anything follows the colon, and the subsequent `.strip()`
makes the result the stripped remainder. -/
def tierMatch (cs : List Char) : Option (String × String) :=
  match markerColon cs with
  | some (m, rest) => if rest = [] then none else some (m, String.mk (pyStripL rest))
  | none => none

/-- A matched part as a labelled `(tier_label, benefit)` pair. -/
def tierPair (p : List Char) : Option (Option String × String) :=
  (tierMatch p).map (fun mt => (some mt.1, mt.2))

/-- Model of `HtmlKB._split_tiers` on a character list: explicit tier blocks if the
split produced more than one part, else the whole cell with no label. -/
def splitTiersL (cs : List Char) : List (Option String × String) :=
  if 1 < (splitParts cs).length then (splitParts cs).filterMap tierPair
  else [(none, String.mk cs)]

/-- Model of `HtmlKB._split_tiers`. -/
def splitTiers (s : String) : List (Option String × String) :=
  splitTiersL s.toList

/-! ### Table extraction (`HtmlKB._extract_table_records`) -/

/-- HMO detection on a lowered header cell: the source runs three
independent `if` statements writing to `hmo_cols[idx]`, so a later match
overwrites an earlier one; that equals this `else if` cascade in reverse
source order. -/
def headerHmo (h : String) : Option HMO :=
  let low := pyLower h
  if strContains low "כללית" ∨ strContains low "clalit" then some HMO.clalit
  else if strContains low "מאוחדת" ∨ strContains low "meuhedet" then some HMO.meuhedet
  else if strContains low "מכבי" ∨ strContains low "maccabi" then some HMO.maccabi
  else none

/-- Model of `file://{path}#t{r}_{c}`, the anchor of a benefit chunk. -/
def tableUri (path : String) (r c : Nat) : String :=
  "file://" ++ path ++ "#t" ++ toString r ++ "_" ++ toString c

/-- The chunks emitted for one identified HMO cell: one per tier segment of
the cell text (the body of the inner `for tier_label, benefit in
self._split_tiers(cell_text)` loop). -/
def cellRecords (path : String) (sect service : Option String) (r c : Nat)
    (hmo : HMO) (cellText : String) : List KBChunk :=
  (splitTiers cellText).map (fun tb =>
    { text := tb.2
      source_uri := tableUri path r c
      hmo := some hmo
      tier_tags := match tb.1 with | some l => [l] | none => []
      sect := sect
      service := service
      kind := "benefit" })

/-- Enumerate a list starting from `start` (Python `enumerate(xs, start)`). -/
def enumFrom (start : Nat) : List α → List (Nat × α)
  | [] => []
  | x :: xs => (start, x) :: enumFrom (start + 1) xs

/-- The chunks emitted for one data row (`cells` is the row's cell texts):
skip empty rows, take the cleaned first cell as the service name, then walk
the remaining cells against the header's HMO columns. -/
def rowRecords (path : String) (sect : Option String) (hmoAt : Nat → Option HMO)
    (r : Nat) (cells : List String) : List KBChunk :=
  match cells with
  | [] => []
  | c0 :: rest =>
    let service := some (clean c0)
    (enumFrom 1 rest).flatMap (fun ci_td =>
      match hmoAt ci_td.1 with
      | none => []
      | some hmo => cellRecords path sect service r ci_td.1 hmo (clean ci_td.2))

/-- Model of `HtmlKB._extract_table_records`: a table is its rows' cell texts; the
first row is the header identifying HMO columns, the rest are data rows. -/
def extractTableRecords (path : String) (rows : List (List String))
    (sect : Option String) : List KBChunk :=
  match rows with
  | [] => []
  | header :: dataRows =>
    let headers := header.map clean
    let hmoAt : Nat → Option HMO := fun i => (headers.get? i).bind headerHmo
    (enumFrom 1 dataRows).flatMap (fun ri_tr => rowRecords path sect hmoAt ri_tr.1 ri_tr.2)

/-! ### List extraction (`HtmlKB._extract_list_contacts`) -/

/-- ASCII digit. -/
def isDig (c : Char) : Bool := '0' ≤ c ∧ c ≤ '9'

/-- Exactly `n` leading digits, returning them and the remainder. -/
def takeDigits : Nat → List Char → Option (List Char × List Char)
  | 0, cs => some ([], cs)
  | _ + 1, [] => none
  | n + 1, c :: cs =>
    if isDig c then (takeDigits n cs).map (fun p => (c :: p.1, p.2)) else none

/-- First alternative of `PHONE_RE`: `\d{2,3}-\d{6,7}` (greedy, so the
3-digit and 7-digit widths are tried first). -/
def phoneAlt1 (cs : List Char) : Option (List Char × List Char) :=
  let pipe : Nat → Nat → Option (List Char × List Char) := fun n1 n2 =>
    match takeDigits n1 cs with
    | some (d1, '-' :: r1) =>
      (takeDigits n2 r1).map (fun p => (d1 ++ '-' :: p.1, p.2))
    | _ => none
  (pipe 3 7).orElse (fun _ => (pipe 3 6).orElse (fun _ =>
    (pipe 2 7).orElse (fun _ => pipe 2 6)))

/-- Second alternative of `PHONE_RE`: `\d{1}-\d{3}-\d{2}-\d{2}-\d{2}`. -/
def phoneAlt2 (cs : List Char) : Option (List Char × List Char) :=
  match takeDigits 1 cs with
  | some (d1, '-' :: r1) =>
    match takeDigits 3 r1 with
    | some (d2, '-' :: r2) =>
      match takeDigits 2 r2 with
      | some (d3, '-' :: r3) =>
        match takeDigits 2 r3 with
        | some (d4, '-' :: r4) =>
          (takeDigits 2 r4).map (fun p =>
            (d1 ++ '-' :: d2 ++ '-' :: d3 ++ '-' :: d4 ++ '-' :: p.1, p.2))
        | _ => none
      | _ => none
    | _ => none
  | _ => none

/-- Third alternative of `PHONE_RE`: `\*?\d{3,4}` (a consumed `*` must be
followed by the digits; greedy width 4 before 3). -/
def phoneAlt3 (cs : List Char) : Option (List Char × List Char) :=
  match cs with
  | '*' :: rest =>
    ((takeDigits 4 rest).orElse (fun _ => takeDigits 3 rest)).map
      (fun p => ('*' :: p.1, p.2))
  | _ =>
    (takeDigits 4 cs).orElse (fun _ => takeDigits 3 cs)

/-- Model of `PHONE_RE` match attempt at the current position (alternation order of
the source pattern). -/
def phoneMatchAt (cs : List Char) : Option (List Char × List Char) :=
  (phoneAlt1 cs).orElse (fun _ => (phoneAlt2 cs).orElse (fun _ => phoneAlt3 cs))

/-- Model of `PHONE_RE.findall`: leftmost non-overlapping scan (every match consumes
at least one character, so the list length bounds the steps). -/
def phoneFindAux : Nat → List Char → List String
  | 0, _ => []
  | _, [] => []
  | fuel + 1, c :: rest =>
    match phoneMatchAt (c :: rest) with
    | some (m, after) => String.mk m :: phoneFindAux fuel after
    | none => phoneFindAux fuel rest

/-- Model of `PHONE_RE.findall(txt)`. -/
def phoneFindall (s : String) : List String :=
  phoneFindAux s.toList.length s.toList

/-- Model of `EXT_RE` (`שלוחה\s*(\d+)`) match attempt at the current position. -/
def extMatchAt (cs : List Char) : Option String :=
  match cs with
  | a :: b :: c :: d :: e :: rest =>
    if [a, b, c, d, e] = "שלוחה".toList then
      let r := rest.dropWhile pyIsSpace
      let digits := r.takeWhile isDig
      if digits = [] then none else some (String.mk digits)
    else none
  | _ => none

/-- Model of `EXT_RE.search(txt)`: first match, scanning left to right. -/
def extSearch : List Char → Option String
  | [] => none
  | c :: rest => (extMatchAt (c :: rest)).orElse (fun _ => extSearch rest)

/-- Model of `HtmlKB._guess_hmo_from_text`: unlike the header-column detection this
is a chain of early `return`s, so the FIRST matching name wins. -/
def guessHmo (s : String) : Option HMO :=
  let low := pyLower s
  if strContains low "מכבי" ∨ strContains low "maccabi" then some HMO.maccabi
  else if strContains low "מאוחדת" ∨ strContains low "meuhedet" then some HMO.meuhedet
  else if strContains low "כללית" ∨ strContains low "clalit" then some HMO.clalit
  else none

/-- A top-level `<li>` as BeautifulSoup delivers it to the extractor:
`text` is `li.get_text(" ", strip=True)` and `urls` the present `href`s. -/
structure LiNode where
  text : String
  urls : List String
deriving DecidableEq, Repr

/-- The chunk emitted for one `<li>` (body of the loop in
`HtmlKB._extract_list_contacts`); `hashFn` models Python's per-process
seeded string `hash`. -/
def liChunk (hashFn : String → Int) (path : String) (sect : Option String)
    (li : LiNode) : List KBChunk :=
  let txt := clean li.text
  if txt = "" then []
  else
    let urls := li.urls
    let phones := phoneFindall txt
    let hmo := guessHmo txt
    let ext := extSearch txt.toList
    if phones ≠ [] ∨ strContains txt "טלפון" ∨ urls ≠ [] then
      let bits :=
        (if phones ≠ [] then [joinSep "; " phones] else []) ++
        (match ext with | some n => ["שלוחה " ++ n] | none => []) ++
        (if urls ≠ [] then [joinSep "; " urls] else [])
      let payload := if bits = [] then txt else joinSep " | " bits
      [{ text := payload
         source_uri := "file://" ++ path ++ "#c" ++ toString ((hashFn txt).natAbs % 10000)
         hmo := hmo, tier_tags := [], sect := sect, service := none
         kind := "contact" }]
    else
      [{ text := txt
         source_uri := "file://" ++ path ++ "#s" ++ toString ((hashFn txt).natAbs % 10000)
         hmo := none, tier_tags := [], sect := sect, service := some txt
         kind := "service" }]

/-- Model of `HtmlKB._extract_list_contacts`. -/
def extractListContacts (hashFn : String → Int) (path : String)
    (lis : List LiNode) (sect : Option String) : List KBChunk :=
  lis.flatMap (liChunk hashFn path sect)

/-! ### Document walk (`HtmlKB._extract_chunks_from_html`) -/

/-- A node of `soup.find_all(["h1","h2","h3","table","ul","p"])` in
document order, carrying the text BeautifulSoup extracts from it: a table
as its rows' cell texts, a `ul` as its top-level `li`s. -/
inductive Node
  | heading (txt : String)
  | table (rows : List (List String))
  | ul (lis : List LiNode)
  | par (txt : String)
deriving Repr

/-- The walk of `HtmlKB._extract_chunks_from_html`: headings update the
section tracker, tables/lists/paragraphs emit chunks. -/
def walkNodes (hashFn : String → Int) (path : String) :
    Option String → List Node → List KBChunk
  | _, [] => []
  | _, .heading h :: rest => walkNodes hashFn path (some (clean h)) rest
  | sect, .table rows :: rest =>
    extractTableRecords path rows sect ++ walkNodes hashFn path sect rest
  | sect, .ul lis :: rest =>
    extractListContacts hashFn path lis sect ++ walkNodes hashFn path sect rest
  | sect, .par txt :: rest =>
    let t := clean txt
    (if t = "" then []
     else [{ text := t
             source_uri := "file://" ++ path ++ "#p" ++ toString (((hashFn t) % 10000).toNat)
             hmo := none, tier_tags := [], sect := sect, service := none
             kind := "blurb" }]) ++ walkNodes hashFn path sect rest

/-- Model of `HtmlKB._extract_chunks_from_html` (section tracker starts at `None`). -/
def extractChunksFromHtml (hashFn : String → Int) (path : String)
    (nodes : List Node) : List KBChunk :=
  walkNodes hashFn path none nodes

/-- The chunk list of a fresh KB build (`HtmlKB._build_and_cache`): the
concatenation of the per-file extractions in manifest order. -/
def kbBuildChunks (hashFn : String → Int) (files : List (String × List Node)) :
    List KBChunk :=
  files.flatMap (fun pf => extractChunksFromHtml hashFn pf.1 pf.2)

/-! ### Retrieval (`HtmlKB.search`)

The query and chunk vectors come from the external embedding service; the
per-chunk base score is `self._cos(qv, vec)`, a real number computed in
floating point, and is passed in here as the precomputed list `sims`
(aligned with `chunks`, as `zip(self._vectors, self._chunks)` is).  The
float literals `0.75` and `1.08` are the exact rationals `3/4` and
`27/25`.  `_cos` can be negative: for `qv = [1.0]` and `vec = [-1.0]` the
dot product is `-1`, both norms are exactly `1`, and `_cos` returns
exactly `-1.0` (see `dotProd_negone` below). -/

/-- Dot product of `HtmlKB._cos`, over exact rationals. -/
def dotProd (a b : List ℚ) : ℚ :=
  ((a.zip b).map (fun p => p.1 * p.2)).sum

/-- Squared norm appearing under the square root in `HtmlKB._cos`. -/
def normSq (a : List ℚ) : ℚ := (a.map (fun x => x * x)).sum

/-- The multiplicative biasing of `HtmlKB.search`: `score *= 0.75` when an
`hmo` is requested and the chunk's non-null HMO differs; `score *= 1.08`
when a `tier` is requested and listed in the chunk's `tier_tags` (the
`str`-enum `tier` compares equal to its Hebrew value string). -/
def scoreChunk (s : ℚ) (ch : KBChunk) (hmo : Option HMO) (tier : Option Tier) : ℚ :=
  let s1 :=
    match hmo, ch.hmo with
    | some h, some chh => if chh ≠ h then s * (3 / 4 : ℚ) else s
    | _, _ => s
  match tier with
  | some t => if t.val ∈ ch.tier_tags then s1 * (27 / 25 : ℚ) else s1
  | none => s1

/-- The `scored` list of `HtmlKB.search`: `(score, chunk)` pairs. -/
def scoredList (sims : List ℚ) (chunks : List KBChunk)
    (hmo : Option HMO) (tier : Option Tier) : List (ℚ × KBChunk) :=
  (sims.zip chunks).map (fun p => (scoreChunk p.1 p.2 hmo tier, p.2))

/-- Descending comparison on the score component, the order of
`scored.sort(key=lambda t: t[0], reverse=True)`. -/
def scoreGE (a b : ℚ × KBChunk) : Prop := b.1 ≤ a.1

instance : DecidableRel scoreGE := fun a b => inferInstanceAs (Decidable (b.1 ≤ a.1))

instance : IsTotal (ℚ × KBChunk) scoreGE := ⟨fun a b => le_total b.1 a.1⟩

instance : IsTrans (ℚ × KBChunk) scoreGE :=
  ⟨fun _ _ _ h1 h2 => le_trans h2 h1⟩

/-- The sorted `scored` list: Python's `list.sort` is a stable sort, and
`List.insertionSort` with a total transitive relation is one. -/
def sortedScored (sims : List ℚ) (chunks : List KBChunk)
    (hmo : Option HMO) (tier : Option Tier) : List (ℚ × KBChunk) :=
  List.insertionSort scoreGE (scoredList sims chunks hmo tier)

/-- Model of `HtmlKB.search` given the base similarities: empty index short-circuit,
then bias, stable descending sort, truncation to `top_k` and projection to
the chunks. -/
def searchScored (sims : List ℚ) (chunks : List KBChunk)
    (hmo : Option HMO) (tier : Option Tier) (topK : Nat) : List KBChunk :=
  if chunks = [] then []
  else ((sortedScored sims chunks hmo tier).take topK).map (fun p => p.2)

/-- Rank (index of first occurrence) of a scored entry in a list — the
position at which `search` would return it. -/
def idxOf (e : ℚ × KBChunk) : List (ℚ × KBChunk) → Nat
  | [] => 0
  | x :: xs => if x = e then 0 else idxOf e xs + 1

end HtmlKB

/-! ## Profile data model (`Part_2/core_models/dto.py`)

`UserProfile` is a pydantic model with `extra="forbid"`; construction
validates `id_number`/`hmo_card_number` against `^\d{9}$`, `birth_year`
against `ge=1900, le=datetime.now(UTC).year` (the year is captured when
the module is imported and is passed in here as `currentYear`), and the
enum fields against their value sets. -/

/-- Model of `UserProfile` (a successfully constructed instance). -/
structure UserProfile where
  first_name : Option String := none
  last_name : Option String := none
  id_number : Option String := none
  gender : Option Gender := some Gender.unspecified
  birth_year : Option Int := none
  hmo_name : Option HMO := none
  hmo_card_number : Option String := none
  membership_tier : Option Tier := none
deriving DecidableEq, Repr

/-- A dynamic Python value as it occurs in `profile.model_dump()` output
and in LLM-produced patches: strings, ints, `None`, enum members
(`model_dump` keeps enum instances), and `other` for any further JSON
value (bool, float, list, dict), on which every typed field check fails. -/
inductive PVal
  | str (s : String)
  | int (i : Int)
  | null
  | gen (g : Gender)
  | hmo (h : HMO)
  | tier (t : Tier)
  | other
deriving DecidableEq, Repr

/-- The `data` dict of `_merge_patch`: one slot per `UserProfile` field
plus the unknown keys the loop may add (`extra="forbid"` rejects any). -/
structure PData where
  first_name : PVal
  last_name : PVal
  id_number : PVal
  gender : PVal
  birth_year : PVal
  hmo_name : PVal
  hmo_card_number : PVal
  membership_tier : PVal
  extra : List String
deriving DecidableEq, Repr

/-- Model of `profile.model_dump()`. -/
def dumpProfile (p : UserProfile) : PData where
  first_name := match p.first_name with | some s => .str s | none => .null
  last_name := match p.last_name with | some s => .str s | none => .null
  id_number := match p.id_number with | some s => .str s | none => .null
  gender := match p.gender with | some g => .gen g | none => .null
  birth_year := match p.birth_year with | some i => .int i | none => .null
  hmo_name := match p.hmo_name with | some h => .hmo h | none => .null
  hmo_card_number := match p.hmo_card_number with | some s => .str s | none => .null
  membership_tier := match p.membership_tier with | some t => .tier t | none => .null
  extra := []

/-- The `NineDigit` constraint `^\d{9}$`. -/
def nineDigit (s : String) : Bool :=
  s.toList.length = 9 ∧ s.toList.all HtmlKB.isDig

/-- Parse an optional plain-string field (pydantic `Optional[str]`). -/
def parseOptStr : PVal → Option (Option String)
  | .null => some none
  | .str s => some (some s)
  | _ => none

/-- Parse an optional `NineDigit` field. -/
def parseNine : PVal → Option (Option String)
  | .null => some none
  | .str s => if nineDigit s then some (some s) else none
  | _ => none

/-- Gender value lookup (pydantic resolves a string against the
`str`-enum's values). -/
def genderOfVal (s : String) : Option Gender :=
  if s = "male" then some .male
  else if s = "female" then some .female
  else if s = "other" then some .other
  else if s = "unspecified" then some .unspecified
  else none

/-- HMO value lookup. -/
def hmoOfVal (s : String) : Option HMO :=
  if s = "מכבי" then some .maccabi
  else if s = "מאוחדת" then some .meuhedet
  else if s = "כללית" then some .clalit
  else none

/-- Tier value lookup. -/
def tierOfVal (s : String) : Option Tier :=
  if s = "זהב" then some .gold
  else if s = "כסף" then some .silver
  else if s = "ארד" then some .bronze
  else none

/-- Parse `Optional[Gender]`. -/
def parseGender : PVal → Option (Option Gender)
  | .null => some none
  | .gen g => some (some g)
  | .str s => (genderOfVal s).map some
  | _ => none

/-- Parse `Optional[HMO]`. -/
def parseHmo : PVal → Option (Option HMO)
  | .null => some none
  | .hmo h => some (some h)
  | .str s => (hmoOfVal s).map some
  | _ => none

/-- Parse `Optional[Tier]`. -/
def parseTier : PVal → Option (Option Tier)
  | .null => some none
  | .tier t => some (some t)
  | .str s => (tierOfVal s).map some
  | _ => none

/-- Parse `Optional[int] = Field(ge=1900, le=currentYear)`; pydantic's lax
mode also coerces a digit string. -/
def parseBirthYear (currentYear : Int) : PVal → Option (Option Int)
  | .null => some none
  | .int i => if 1900 ≤ i ∧ i ≤ currentYear then some (some i) else none
  | .str s =>
    if pyIsDigit s then
      let i : Int := strToNat s
      if 1900 ≤ i ∧ i ≤ currentYear then some (some i) else none
    else none
  | _ => none

/-- Model of `UserProfile(**data)`: fails (pydantic `ValidationError`) when an
unknown key is present (`extra="forbid"`) or any field value fails its
check. -/
def parseData (currentYear : Int) (d : PData) : Option UserProfile :=
  if d.extra ≠ [] then none
  else do
    let fn ← parseOptStr d.first_name
    let ln ← parseOptStr d.last_name
    let idn ← parseNine d.id_number
    let g ← parseGender d.gender
    let by_ ← parseBirthYear currentYear d.birth_year
    let hn ← parseHmo d.hmo_name
    let hcn ← parseNine d.hmo_card_number
    let mt ← parseTier d.membership_tier
    pure { first_name := fn, last_name := ln, id_number := idn, gender := g
           birth_year := by_, hmo_name := hn, hmo_card_number := hcn
           membership_tier := mt }

/-! ## Patch merging (`Part_2/orchestrator/utils.py`, `_merge_patch`) -/

/-- Model of `str(v)` for the `id_number`/`hmo_card_number` branch (enum members
never occur in JSON patches; `other` stands for objects whose `str()` can
never be nine ASCII digits, so the empty string preserves the outcome). -/
def pyStr : PVal → String
  | .str s => s
  | .int i => toString i
  | .gen g => g.val
  | .hmo h => h.val
  | .tier t => t.val
  | .null => "None"
  | .other => ""

/-- The per-field canonicalization of `_merge_patch`: lower-case/strip
every string, then apply the synonym maps (`HMO`, `TIER`, `GENDER`),
digit-string-to-int for `birth_year`, and `str(v).strip()` for the
9-digit fields.  The source wraps this in a per-field `try/except`; in
the modelled fragment (ASCII digit strings) nothing in it can raise. -/
def processVal (k : String) (v : PVal) : PVal :=
  let v := match v with | .str s => .str (pyLower (pyStrip s)) | w => w
  if k = "hmo_name" then
    match v with
    | .str s =>
      if s = "maccabi" then .str "מכבי"
      else if s = "meuhedet" then .str "מאוחדת"
      else if s = "clalit" then .str "כללית"
      else .str s
    | w => w
  else if k = "membership_tier" then
    match v with
    | .str s =>
      if s = "gold" then .str "זהב"
      else if s = "silver" then .str "כסף"
      else if s = "bronze" then .str "ארד"
      else .str s
    | w => w
  else if k = "gender" then
    match v with
    | .str s =>
      if s = "male" then .str "male"
      else if s = "female" then .str "female"
      else if s = "זכר" then .str "male"
      else if s = "נקבה" then .str "female"
      else .str s
    | w => w
  else if k = "birth_year" then
    match v with
    | .str s => if pyIsDigit s then .int (strToNat s) else .str s
    | w => w
  else if k = "id_number" ∨ k = "hmo_card_number" then
    .str (pyStrip (pyStr v))
  else v

/-- Model of `data[k] = v` for the eight known keys, or record an unknown key. -/
def setKey (d : PData) (k : String) (v : PVal) : PData :=
  if k = "first_name" then { d with first_name := v }
  else if k = "last_name" then { d with last_name := v }
  else if k = "id_number" then { d with id_number := v }
  else if k = "gender" then { d with gender := v }
  else if k = "birth_year" then { d with birth_year := v }
  else if k = "hmo_name" then { d with hmo_name := v }
  else if k = "hmo_card_number" then { d with hmo_card_number := v }
  else if k = "membership_tier" then { d with membership_tier := v }
  else { d with extra := d.extra ++ [k] }

/-- One iteration of the `for k, v in (patch or {}).items()` loop:
`None` values are skipped, everything else is canonicalized and stored. -/
def patchStep (d : PData) (kv : String × PVal) : PData :=
  if kv.2 = .null then d else setKey d kv.1 (processVal kv.1 kv.2)

/-- The whole patch loop over the dump of the previous profile. -/
def applyPatch (d : PData) (patch : List (String × PVal)) : PData :=
  patch.foldl patchStep d

/-- Model of `_merge_patch`: build `data`, loop, then try `UserProfile(**data)` and
fall back to the original profile if construction fails. -/
def mergePatch (currentYear : Int) (profile : UserProfile)
    (patch : List (String × PVal)) : UserProfile :=
  match parseData currentYear (applyPatch (dumpProfile profile) patch) with
  | some p => p
  | none => profile

/-- The last value a dict-like patch associates with key `k` (a Python
dict holds each key once; on association lists the last binding wins). -/
def lastVal (patch : List (String × PVal)) (k : String) : Option PVal :=
  ((patch.filter (fun kv => kv.1 = k)).getLast?).map (fun kv => kv.2)

/-! ## Conversation history (`core_models/dto.py` `Turn`,
`orchestrator/utils.py` `_history_to_messages`) -/

/-- Model of `Turn`: one round of conversation. -/
structure Turn where
  user_text : Option String := none
  assistant_text : Option String := none
  citations : List String := []
deriving DecidableEq, Repr

/-- Python truthiness of an `Optional[str]`: `None` and `""` are falsy. -/
def truthyStr : Option String → Bool
  | none => false
  | some s => s ≠ ""

/-- The at-most-two `(role, content)` messages a `Turn` flattens to
(`if t.user_text: ...` then `if t.assistant_text: ...`). -/
def turnMsgs (t : Turn) : List (String × String) :=
  (if truthyStr t.user_text then [("user", t.user_text.getD "")] else []) ++
  (if truthyStr t.assistant_text then [("assistant", t.assistant_text.getD "")] else [])

/-- The flattening loop of `_history_to_messages`, tagged with the index
of the originating `Turn` (the tag is erased before the messages are used;
it carries the provenance the spec's history-budget property speaks of). -/
def flattenTagged (turns : List Turn) : List (Nat × String × String) :=
  (HtmlKB.enumFrom 0 turns).flatMap (fun it => (turnMsgs it.2).map (fun m => (it.1, m)))

/-- The index of the most recent `Turn` that contributes at least one
message (non-empty `user_text` or `assistant_text`). -/
def lastContributing (turns : List Turn) : Option Nat :=
  (((HtmlKB.enumFrom 0 turns).filter (fun it => !(turnMsgs it.2).isEmpty)).getLast?).map
    (fun it => it.1)

/-- The untagged message list the source builds. -/
def flattenTurns (turns : List Turn) : List (String × String) :=
  turns.flatMap turnMsgs

/-- Model of `total_chars`: sum of `len(m["content"])` under a content projection
(instantiated once for plain messages and once for tagged ones). -/
def totalChars (content : α → String) (ms : List α) : Nat :=
  (ms.map (fun m => (content m).length)).sum

/-- The `while msgs and total_chars(msgs) > max_chars: msgs.pop(0)` loop. -/
def trimLoop (content : α → String) (maxChars : Nat) : List α → List α
  | [] => []
  | m :: rest =>
    if maxChars < totalChars content (m :: rest) then trimLoop content maxChars rest
    else m :: rest

/-- Model of `_history_to_messages` (`max_chars` is the configured non-negative
character budget). -/
def historyToMessages (turns : List Turn) (maxChars : Nat) : List (String × String) :=
  trimLoop (fun m => m.2) maxChars (flattenTurns turns)

/-! ## LLM JSON handling (`orchestrator/utils.py`) -/

/-- A parsed JSON value as `json.loads` returns it (`flt` covers float
literals, which no modelled code path inspects). -/
inductive JVal
  | jstr (s : String)
  | jint (i : Int)
  | jbool (b : Bool)
  | jnull
  | jarr (xs : List JVal)
  | jobj (kvs : List (String × JVal))
  | flt
deriving Repr

/-- The safe structure of `_fallback_json`. -/
def fallbackMsg : String := "⚠️ לא הצלחתי לפענח את התשובה. אנא נסה שוב."

/-- Model of `_fallback_json()`. -/
def fallbackJson : JVal :=
  .jobj [("assistant_say", .jstr fallbackMsg),
         ("profile_patch", .jobj []),
         ("status", .jstr "ASKING")]

/-- Model of `parse_llm_json`: the argument models the outcome of `json.loads` on
the raw reply (`none` = the text was falsy/not a `str` or raised
`JSONDecodeError`). -/
def parseLlmJson (raw : Option JVal) : JVal :=
  match raw with
  | none => fallbackJson
  | some v => v

/-- Model of `parsed.get(k)` (the source only ever receives objects here: a
non-object reply would raise `AttributeError` in the source, a path none
of the settled claims exercises). -/
def jget (v : JVal) (k : String) : Option JVal :=
  match v with
  | .jobj kvs => (kvs.find? (fun kv => kv.1 = k)).map (fun kv => kv.2)
  | _ => none

/-- Model of `(parsed.get(k) or "")` for a string-valued key: `None` and falsy
values give `""` (a non-string truthy value would make the source's
`.strip()` raise, again outside the settled claims). -/
def jStrOrEmpty : Option JVal → String
  | some (.jstr s) => s
  | _ => ""

/-- Model of `(parsed.get("status") or "ASKING")`. -/
def jStrOr (v : Option JVal) (dflt : String) : String :=
  match v with
  | some (.jstr s) => if s = "" then dflt else s
  | _ => dflt

/-- A JSON value as a patch value. -/
def jvalToPVal : JVal → PVal
  | .jstr s => .str s
  | .jint i => .int i
  | .jnull => .null
  | _ => .other

/-- Model of `(parsed.get("profile_patch") or {})` as an association list. -/
def jPatch : Option JVal → List (String × PVal)
  | some (.jobj kvs) => kvs.map (fun kv => (kv.1, jvalToPVal kv.2))
  | _ => []

/-! ## Profile completeness (`_is_profile_complete_and_valid`) -/

/-- The `problems` list of `_is_profile_complete_and_valid` (Python
truthiness: empty strings, `None` and the int `0` are all falsy). -/
def profileProblems (p : UserProfile) : List String :=
  (if ¬ truthyStr p.first_name then ["first_name missing"] else []) ++
  (if ¬ truthyStr p.last_name then ["last_name missing"] else []) ++
  (if ¬ truthyStr p.id_number then ["id_number missing (9 digits)"] else []) ++
  (if p.gender = none ∨ p.gender = some Gender.unspecified then ["gender missing"] else []) ++
  (if p.birth_year = none ∨ p.birth_year = some 0 then ["birth_year missing"] else []) ++
  (if p.hmo_name = none then ["hmo_name missing"] else []) ++
  (if ¬ truthyStr p.hmo_card_number then ["hmo_card_number missing (9 digits)"] else []) ++
  (if p.membership_tier = none then ["membership_tier missing"] else [])

/-- The boolean component of `_is_profile_complete_and_valid`. -/
def profileComplete (p : UserProfile) : Bool :=
  profileProblems p = []

/-! ## The INFO turn (`OrchestratorService._turn_info`) -/

/-- Model of `ChatResponse` (the `trace_id`, `request_id or str(uuid.uuid4())`, is
nondeterministic and not modelled). -/
structure ChatResponse where
  assistant_text : String
  suggested_phase : Phase
  user_profile : UserProfile
  citations : List String
  validation_flags : List String
deriving DecidableEq, Repr

/-- The locale-dependent fallback used when the chat call itself raises. -/
def infoLlmErrorText (locale : Locale) : String :=
  if locale = .he then
    "⚠️ הייתה בעיה טכנית בעיבוד הבקשה. אנא נסה/י שוב בעוד מספר רגעים."
  else
    "⚠️ There was a technical problem handling your request. Please try again in a moment."

/-- Model of `OrchestratorService._turn_info` given the outcome of the chat call:
`Except.error` models the `except` branch (the call raised after
retries); `Except.ok raw` models a returned string with `raw` the
`json.loads` outcome `parse_llm_json` sees.  Returns the response and the
updated history (`sb.history.turns` after the turn). -/
def turnInfo (currentYear : Int) (locale : Locale) (profile : UserProfile)
    (turns : List Turn) (userText : String)
    (chatResult : Except Unit (Option JVal)) : ChatResponse × List Turn :=
  match chatResult with
  | .error _ =>
    ({ assistant_text := infoLlmErrorText locale
       suggested_phase := .infoCollection
       user_profile := profile
       citations := []
       validation_flags := ["LLM_ERROR"] }, turns)
  | .ok raw =>
    let parsed := parseLlmJson raw
    let assistantSay := pyStrip (jStrOrEmpty (jget parsed "assistant_say"))
    let patch := jPatch (jget parsed "profile_patch")
    let status := pyUpper (jStrOr (jget parsed "status") "ASKING")
    let turns' := turns ++ [{ user_text := some userText, assistant_text := some assistantSay }]
    let newProfile := mergePatch currentYear profile patch
    let suggested :=
      if status = "CONFIRMED" ∧ profileComplete newProfile then Phase.qna
      else Phase.infoCollection
    ({ assistant_text :=
         if assistantSay = "" then (if locale ≠ .he then "OK." else "אוקיי.") else assistantSay
       suggested_phase := suggested
       user_profile := newProfile
       citations := []
       validation_flags := [] }, turns')

/-! ## QNA context composition (`OrchestratorService._turn_qna`)

`parts` holds the rendered per-chunk lines (their exact f-string rendering
of enum members is Python-version dependent and irrelevant to the budget
property); the block is their `"\n\n"`-join, sliced and suffixed with
`"\n…"` when it exceeds `max_context_chars`. -/

/-- Model of `"\n\n".join(parts)` on character lists. -/
def ctxJoin : List (List Char) → List Char
  | [] => []
  | [p] => p
  | p :: ps => p ++ '\n' :: '\n' :: ctxJoin ps

/-- The context block: `context_blob[:max] + "\n…"` when over budget. -/
def composeContext (parts : List (List Char)) (maxContextChars : Nat) : List Char :=
  if maxContextChars < (ctxJoin parts).length then
    (ctxJoin parts).take maxContextChars ++ ['\n', '…']
  else ctxJoin parts

/-! ## Client retry loop (`Part_2/azure_integration/clients.py`) -/

/-- The transient exception types `_retry_loop` catches (`openai`'s
`RateLimitError`, `APITimeoutError`, `APIError`). -/
inductive TransientError | rateLimitError | apiTimeoutError | apiError
deriving DecidableEq, Repr

/-- What a failing `_retry_loop` call raises.  `transient e` is the code's
behaviour: the caught exception is re-raised.  `upstreamError` is
modelled from the spec: the spec's retry policy names an `UpstreamError`
raised after the retries are exhausted, but no such type exists anywhere
in the repository. -/
inductive RaisedError
  | transient (e : TransientError)
  | upstreamError
deriving DecidableEq, Repr

/-- Model of `_retry_loop` unrolled: `fn k` is the outcome of call number `k`
(starting at 0), `gas` the retries still available; returns the final
outcome together with the list of back-off sleep durations, in order.
After call `k` fails the attempt counter is `k + 1` and the sleep before
the next call is `backoff_base * 2 ** (attempt - 1) = base * 2^k`. -/
def retryAux (fn : Nat → Except TransientError α) (base : ℚ) :
    Nat → Nat → Except RaisedError α × List ℚ
  | gas, k =>
    match fn k with
    | .ok a => (.ok a, [])
    | .error e =>
      match gas with
      | 0 => (.error (.transient e), [])
      | g + 1 =>
        let r := retryAux fn base g (k + 1)
        (r.1, base * 2 ^ k :: r.2)

/-- Model of `_retry_loop(fn, retries=retries, backoff_base=base)`. -/
def retryLoop (fn : Nat → Except TransientError α) (retries : Nat) (base : ℚ) :
    Except RaisedError α × List ℚ :=
  retryAux fn base retries 0

/-! ## Theorems -/

section TierSplitLemmas

open HtmlKB

/-- Model of `dropWhile` over an append when the left part already yields a kept
head. -/
theorem dropWhile_append_cons {f : Char → Bool} :
    ∀ (l q : List Char) (c : Char) (r : List Char),
      l.dropWhile f = c :: r → (l ++ q).dropWhile f = c :: (r ++ q)
  | [], _, _, _, h => by simp at h
  | a :: l', q, c, r, h => by
    by_cases hfa : f a
    · rw [List.dropWhile_cons_of_pos hfa] at h
      rw [List.cons_append, List.dropWhile_cons_of_pos hfa]
      exact dropWhile_append_cons l' q c r h
    · rw [List.dropWhile_cons_of_neg hfa] at h
      rw [List.cons_append, List.dropWhile_cons_of_neg hfa]
      cases h
      rfl

/-- Model of `markerColon` only inspects a prefix: a match survives appending. -/
theorem markerColon_append (p q : List Char) (m : String) (r : List Char)
    (h : markerColon p = some (m, r)) : markerColon (p ++ q) = some (m, r ++ q) := by
  match p with
  | [] => simp [markerColon] at h
  | [a] => simp [markerColon] at h
  | [a, b] => simp [markerColon] at h
  | a :: b :: c :: rest =>
    simp only [markerColon, List.cons_append] at h ⊢
    by_cases hm : [a, b, c] ∈ tierMarkers
    · rw [if_pos hm] at h ⊢
      cases hd : rest.dropWhile pyIsSpace with
      | nil => rw [hd] at h; exact absurd h (by simp)
      | cons d r2 =>
        rw [hd] at h
        replace h : (if d = ':' ∨ d = '：' then some (String.mk [a, b, c], r2) else none)
            = some (m, r) := h
        by_cases hcol : d = ':' ∨ d = '：'
        · rw [if_pos hcol] at h
          have hdq : (rest ++ q).dropWhile pyIsSpace = d :: (r2 ++ q) :=
            dropWhile_append_cons rest q d r2 hd
          rw [hdq]
          show (if d = ':' ∨ d = '：' then some (String.mk [a, b, c], r2 ++ q) else none)
            = some (m, r ++ q)
          rw [if_pos hcol]
          cases h
          rfl
        · rw [if_neg hcol] at h
          exact absurd h (by simp)
    · rw [if_neg hm] at h
      exact absurd h (by simp)

/-- Model of `spAux` never returns an empty part list. -/
theorem spAux_ne_nil : ∀ cs : List Char, spAux cs ≠ []
  | [] => by simp [spAux]
  | c :: rest => by
    unfold spAux
    by_cases hs : startsTier rest
    · simp [hs]
    · simp only [hs, if_false]
      cases h : spAux rest <;> simp

/-- The first part produced by `spAux` is a prefix of the input. -/
theorem spAux_head_isPre : ∀ (cs h : List Char) (t : List (List Char)),
    spAux cs = h :: t → h <+: cs
  | [], h, t, he => by
    simp [spAux] at he
    rw [he.1]
  | c :: rest, h, t, he => by
    unfold spAux at he
    by_cases hs : startsTier rest
    · rw [if_pos hs] at he
      cases he
      exact ⟨rest, rfl⟩
    · rw [if_neg hs] at he
      cases hr : spAux rest with
      | nil => exact absurd hr (spAux_ne_nil rest)
      | cons h' t' =>
        have hpre := spAux_head_isPre rest h' t' hr
        rw [hr] at he
        cases he
        obtain ⟨s, hs⟩ := hpre
        exact ⟨s, by rw [List.cons_append, hs]⟩

/-- A part on which the tier regex matches would make the split lookahead
fire at its start position. -/
theorem tierMatch_none_of_not_startsTier (cs p : List Char)
    (hpre : p <+: cs) (hst : ¬ startsTier cs) : tierMatch p = none := by
  cases hm : markerColon p with
  | none => unfold tierMatch; rw [hm]
  | some mr =>
    obtain ⟨q, hq⟩ := hpre
    have : markerColon cs = some (mr.1, mr.2 ++ q) := by
      rw [← hq]
      exact markerColon_append p q mr.1 mr.2 (by rw [hm])
    exact absurd (by unfold startsTier; rw [this]; rfl) hst

/-- When `re.split` produced several parts, the part before the first tier
marker never matches the tier regex. -/
theorem splitParts_head_no_tier (cs p : List Char) (ps : List (List Char))
    (h : splitParts cs = p :: ps) : tierMatch p = none := by
  unfold splitParts at h
  by_cases hs : startsTier cs
  · rw [if_pos hs] at h
    cases h
    rfl
  · rw [if_neg hs] at h
    exact tierMatch_none_of_not_startsTier cs p (spAux_head_isPre cs p ps h) hs

end TierSplitLemmas

/-- C9: when a table cell contains a tier marker preceded by other text,
`_split_tiers` yields exactly the matches of the parts after the leading
one — the text before the first tier marker matches no tier block and is
silently dropped — and every produced segment carries a tier label. -/
theorem splitTiers_drops_leading_text (cs p : List Char) (ps : List (List Char))
    (x : Option String × String)
    (h : HtmlKB.splitParts cs = p :: ps) (hps : ps ≠ []) :
    HtmlKB.splitTiersL cs = ps.filterMap HtmlKB.tierPair ∧
    (x ∈ HtmlKB.splitTiersL cs → x.1.isSome) := by
  have hnone : HtmlKB.tierMatch p = none := splitParts_head_no_tier cs p ps h
  have hlen : 1 < (HtmlKB.splitParts cs).length := by
    rw [h]
    cases ps with
    | nil => exact absurd rfl hps
    | cons a l => simp only [List.length_cons]; omega
  have hpair : HtmlKB.tierPair p = none := by
    unfold HtmlKB.tierPair
    rw [hnone]
    rfl
  have h1 : HtmlKB.splitTiersL cs = ps.filterMap HtmlKB.tierPair := by
    unfold HtmlKB.splitTiersL
    rw [if_pos hlen, h, List.filterMap_cons, hpair]
  refine ⟨h1, fun hx => ?_⟩
  rw [h1] at hx
  obtain ⟨a, _, ha⟩ := List.mem_filterMap.mp hx
  unfold HtmlKB.tierPair at ha
  cases hm : HtmlKB.tierMatch a with
  | none => rw [hm] at ha; simp at ha
  | some mt =>
    rw [hm] at ha
    simp only [Option.map_some', Option.some_inj] at ha
    rw [← ha]
    rfl

/-- Witness for C9: in `"הקדמה זהב: 70%"` the leading word is dropped and
the one produced segment is labelled `זהב`. -/
theorem splitTiers_drops_leading_text_witness :
    HtmlKB.splitTiersL "הקדמה זהב: 70%".toList =
      ["זהב: 70%".toList].filterMap HtmlKB.tierPair ∧
    ((some "זהב", "70%") ∈ HtmlKB.splitTiersL "הקדמה זהב: 70%".toList →
      ((some "זהב", ("70%" : String)) : Option String × String).1.isSome) :=
  splitTiers_drops_leading_text "הקדמה זהב: 70%".toList "הקדמה ".toList
    ["זהב: 70%".toList] (some "זהב", "70%") (by decide) (by decide)

/-- C1, the claim as stated is false: a build over one file containing one
table whose Maccabi cell holds two tier blocks emits two chunks with the
same `source_uri` (`file://f.html#t1_1`), so source URIs are not pairwise
distinct within the build. -/
theorem kbBuild_duplicate_source_uri :
    ¬ List.Pairwise (fun a b => a ≠ b)
      ((HtmlKB.kbBuildChunks (fun _ => 0)
        [("f.html", [HtmlKB.Node.table [["שירות", "מכבי"], ["דיקור", "זהב: 70% כסף: 50%"]]])]).map
        KBChunk.source_uri) := by
  decide

/-- C1 (amended): the `source_uri` of a benefit chunk records only the
file, row and column of the cell it came from, so every chunk emitted from
one table cell — in particular all tier segments of a multi-tier cell —
carries the same `source_uri` `file://<path>#t<row>_<col>`, and uniqueness
within a build fails for such cells. -/
theorem cellRecords_share_anchor (path : String) (sect service : Option String)
    (r c : Nat) (hmo : HMO) (cell : String) (ch : KBChunk)
    (hch : ch ∈ HtmlKB.cellRecords path sect service r c hmo cell) :
    ch.source_uri = HtmlKB.tableUri path r c := by
  obtain ⟨tb, _, rfl⟩ := List.mem_map.mp hch
  rfl

/-- Witness for C1: the gold-tier chunk of the two-tier cell carries the
cell anchor. -/
theorem cellRecords_share_anchor_witness :
    ({ text := "70%", source_uri := "file://f.html#t1_1", hmo := some HMO.maccabi,
       tier_tags := ["זהב"], sect := none, service := some "דיקור",
       kind := "benefit" } : KBChunk).source_uri = HtmlKB.tableUri "f.html" 1 1 :=
  cellRecords_share_anchor "f.html" none (some "דיקור") 1 1 HMO.maccabi
    "זהב: 70% כסף: 50%"
    { text := "70%", source_uri := "file://f.html#t1_1", hmo := some HMO.maccabi,
      tier_tags := ["זהב"], sect := none, service := some "דיקור", kind := "benefit" }
    (by decide)

/-- C2, the claim as stated is false: merging a patch whose `first_name`
value `"Dana"` would pass schema validation together with an `id_number`
that fails it does not keep the valid field — the whole patch is discarded
and the previous (empty) profile comes back with `first_name` still
unset, because `_merge_patch` validates only the fully patched dict. -/
theorem mergePatch_drops_valid_field :
    mergePatch 2026 {} [("first_name", .str "Dana"), ("id_number", .str "12")] = {} ∧
    ({} : UserProfile).first_name = none := by
  constructor
  · decide
  · rfl

/-- C2 (amended): `_merge_patch` has no per-field schema rollback: when
the patched data fails `UserProfile(**data)` construction, the entire
patch is discarded and the previous profile is returned unchanged. -/
theorem mergePatch_all_or_nothing (currentYear : Int) (profile : UserProfile)
    (patch : List (String × PVal))
    (h : parseData currentYear (applyPatch (dumpProfile profile) patch) = none) :
    mergePatch currentYear profile patch = profile := by
  unfold mergePatch
  rw [h]

/-- Witness for C2: a concrete invalid patch is discarded wholesale. -/
theorem mergePatch_all_or_nothing_witness :
    mergePatch 2026 {} [("id_number", .str "12")] = {} :=
  mergePatch_all_or_nothing 2026 {} [("id_number", .str "12")] (by decide)

/-- C3, the claim as stated is false: with budget `N = 5` and one rendered
chunk line, the composed context block has length `7 > 5` — truncation
slices to the budget and then appends the two characters `"\n…"`. -/
theorem composeContext_exceeds_budget :
    ¬ (composeContext ["[1] a | b | c".toList] 5).length ≤ 5 := by
  decide

/-- C3 (amended): the composed context block has length at most
`max_context_chars + 2`; when the joined block exceeds the budget the
result has length exactly `max_context_chars + 2` and ends with the
ellipsis character, and otherwise it is the joined block unchanged
(so its length is within the budget). -/
theorem composeContext_budget (parts : List (List Char)) (maxContextChars : Nat) :
    (composeContext parts maxContextChars).length ≤ maxContextChars + 2 ∧
    (maxContextChars < (ctxJoin parts).length →
      (composeContext parts maxContextChars).length = maxContextChars + 2 ∧
      (composeContext parts maxContextChars).getLast? = some '…') ∧
    ((ctxJoin parts).length ≤ maxContextChars →
      composeContext parts maxContextChars = ctxJoin parts) := by
  unfold composeContext
  by_cases h : maxContextChars < (ctxJoin parts).length
  · rw [if_pos h]
    have hlen : ((ctxJoin parts).take maxContextChars ++ ['\n', '…']).length
        = maxContextChars + 2 := by
      rw [List.length_append, List.length_take]
      simp only [List.length_cons, List.length_nil]
      omega
    refine ⟨le_of_eq hlen, fun _ => ⟨hlen, ?_⟩, fun hle => absurd h (not_lt.mpr hle)⟩
    have hsplit : (ctxJoin parts).take maxContextChars ++ ['\n', '…']
        = ((ctxJoin parts).take maxContextChars ++ ['\n']) ++ ['…'] := by
      simp
    rw [hsplit, List.getLast?_concat]
  · rw [if_neg h]
    exact ⟨by omega, fun hc => absurd hc h, fun _ => rfl⟩

/-- Witness for C3: a two-character block under a zero budget truncates to
exactly two extra characters ending in the ellipsis. -/
theorem composeContext_budget_witness :
    (composeContext ["ab".toList] 0).length ≤ 0 + 2 ∧
    (0 < (ctxJoin ["ab".toList]).length →
      (composeContext ["ab".toList] 0).length = 0 + 2 ∧
      (composeContext ["ab".toList] 0).getLast? = some '…') ∧
    ((ctxJoin ["ab".toList]).length ≤ 0 → composeContext ["ab".toList] 0 = ctxJoin ["ab".toList]) :=
  composeContext_budget ["ab".toList] 0

/-- C4, the claim as stated is false: with the module imported in 2026,
`UserProfile` construction accepts `birth_year = 1900` (the `ge=1900`
bound), giving computed age `126`, outside `[0, 120]`. -/
theorem birthYear_age_can_exceed_120 :
    parseData 2026 (dumpProfile { birth_year := some 1900 }) =
      some { birth_year := some 1900 } ∧
    (2026 - 1900 : Int) = 126 ∧ ¬ ((126 : Int) ≤ 120) := by
  refine ⟨by decide, by norm_num, by norm_num⟩

/-- C4 (amended): for every accepted profile with a birth year, the
computed age `currentYear − birth_year` lies in
`[0, currentYear − 1900]` (the schema bounds are `1900 ≤ birth_year ≤
currentYear`, not an age cap of 120). -/
theorem parseData_age_bounds (currentYear : Int) (d : PData) (p : UserProfile)
    (y : Int) (hp : parseData currentYear d = some p) (hy : p.birth_year = some y) :
    0 ≤ currentYear - y ∧ currentYear - y ≤ currentYear - 1900 := by
  unfold parseData at hp
  by_cases hex : d.extra ≠ []
  · simp [hex] at hp
  · simp only [hex, if_false, Option.bind_eq_bind, Option.bind_eq_some] at hp
    obtain ⟨fn, _, ln, _, idn, _, g, _, by_, hby, hn, _, hcn, _, mt, _, hpure⟩ := hp
    have hfield : p.birth_year = by_ := by
      cases hpure
      rfl
    rw [hfield] at hy
    subst hy
    have : 1900 ≤ y ∧ y ≤ currentYear := by
      cases hbv : d.birth_year with
      | null => rw [hbv] at hby; simp [parseBirthYear] at hby
      | int i =>
        rw [hbv] at hby
        simp only [parseBirthYear] at hby
        split at hby
        · simp at hby
          omega
        · simp at hby
      | str s =>
        rw [hbv] at hby
        simp only [parseBirthYear] at hby
        split at hby
        · split at hby
          · simp at hby
            omega
          · simp at hby
        · simp at hby
      | gen g' => rw [hbv] at hby; simp [parseBirthYear] at hby
      | hmo h' => rw [hbv] at hby; simp [parseBirthYear] at hby
      | tier t' => rw [hbv] at hby; simp [parseBirthYear] at hby
      | other => rw [hbv] at hby; simp [parseBirthYear] at hby
    omega

/-- Witness for C4: a 1980 birth year accepted in 2026 has age in
`[0, 126]`. -/
theorem parseData_age_bounds_witness :
    0 ≤ (2026 : Int) - 1980 ∧ (2026 : Int) - 1980 ≤ 2026 - 1900 :=
  parseData_age_bounds 2026 (dumpProfile { birth_year := some 1980 })
    { birth_year := some 1980 } 1980 (by decide) rfl

/-- C5, the claim as stated is false: after the retries are exhausted the
loop re-raises the last transient exception itself (here the rate-limit
error, after sleeping `base·2⁰` and `base·2¹`); it does not raise an
`UpstreamError` — no such type exists in the code. -/
theorem retryLoop_reraises_transient :
    retryLoop (fun _ => (Except.error .rateLimitError : Except TransientError Nat)) 2 1 =
      (.error (.transient .rateLimitError), [1, 2]) ∧
    RaisedError.transient .rateLimitError ≠ .upstreamError := by
  constructor
  · show retryAux _ _ _ _ = _
    norm_num [retryAux]
  · intro h
    cases h

/-- C5 (amended): on a call that keeps failing transiently, `_retry_loop`
makes the initial call plus `retries` retries, sleeping
`base * 2^(attempt-1)` before retry number `attempt`, and finally fails by
re-raising the last transient error. -/
theorem retryLoop_exhaustion {α : Type} (fn : Nat → Except TransientError α)
    (errs : Nat → TransientError) (retries : Nat) (base : ℚ)
    (hfail : ∀ k, fn k = .error (errs k)) :
    retryLoop fn retries base =
      (.error (.transient (errs retries)),
       (List.range retries).map (fun k => base * 2 ^ k)) := by
  suffices haux : ∀ gas k0, retryAux fn base gas k0 =
      (.error (.transient (errs (k0 + gas))),
       (List.range gas).map (fun j => base * 2 ^ (k0 + j))) by
    have h := haux retries 0
    simpa [retryLoop] using h
  intro gas
  induction gas with
  | zero =>
    intro k0
    unfold retryAux
    rw [hfail k0]
    simp
  | succ g ih =>
    intro k0
    unfold retryAux
    rw [hfail k0]
    have hk : k0 + 1 + g = k0 + (g + 1) := by omega
    simp only [ih (k0 + 1)]
    rw [hk]
    have hfun : (fun j => base * 2 ^ (k0 + 1 + j)) =
        ((fun j => base * 2 ^ (k0 + j)) ∘ Nat.succ) := by
      funext j
      have hj : k0 + 1 + j = k0 + (j + 1) := by omega
      simp [Function.comp, hj]
    simp only [List.range_succ_eq_map, List.map_cons, List.map_map, Nat.add_zero, hfun]

section PatchLemmas

/-- The patch loop peels off its first iteration. -/
theorem applyPatch_cons (d : PData) (kv : String × PVal)
    (rest : List (String × PVal)) :
    applyPatch d (kv :: rest) = applyPatch (patchStep d kv) rest := rfl

/-- A patch with no `first_name` binding leaves the `first_name` slot of
`data` alone. -/
theorem applyPatch_preserves_first_name :
    ∀ (rest : List (String × PVal)) (d : PData),
      (∀ kv ∈ rest, kv.1 ≠ "first_name") →
      (applyPatch d rest).first_name = d.first_name
  | [], _, _ => rfl
  | kv :: rest, d, h => by
    rw [applyPatch_cons]
    have hk : kv.1 ≠ "first_name" := h kv (List.mem_cons_self kv rest)
    have hstep : (patchStep d kv).first_name = d.first_name := by
      unfold patchStep
      split_ifs with h0
      · rfl
      · unfold setKey
        split_ifs <;> first | exact absurd ‹_› hk | rfl
    rw [applyPatch_preserves_first_name rest (patchStep d kv)
      (fun kv' hkv' => h kv' (List.mem_cons_of_mem kv hkv')), hstep]

/-- A patch with no `last_name` binding leaves the `last_name` slot of
`data` alone. -/
theorem applyPatch_preserves_last_name :
    ∀ (rest : List (String × PVal)) (d : PData),
      (∀ kv ∈ rest, kv.1 ≠ "last_name") →
      (applyPatch d rest).last_name = d.last_name
  | [], _, _ => rfl
  | kv :: rest, d, h => by
    rw [applyPatch_cons]
    have hk : kv.1 ≠ "last_name" := h kv (List.mem_cons_self kv rest)
    have hstep : (patchStep d kv).last_name = d.last_name := by
      unfold patchStep
      split_ifs with h0
      · rfl
      · unfold setKey
        split_ifs <;> first | exact absurd ‹_› hk | rfl
    rw [applyPatch_preserves_last_name rest (patchStep d kv)
      (fun kv' hkv' => h kv' (List.mem_cons_of_mem kv hkv')), hstep]

/-- Model of `getLast?` skips a head in front of a non-empty tail. -/
theorem getLast?_cons_ne_nil {α : Type} (a : α) (l : List α) (h : l ≠ []) :
    (a :: l).getLast? = l.getLast? := by
  cases l with
  | nil => exact absurd rfl h
  | cons b t => exact List.getLast?_cons_cons

/-- The last binding of a key in a cons patch. -/
theorem lastVal_cons_of_rest (kv : String × PVal) (rest : List (String × PVal))
    (k : String) (h : rest.filter (fun kv' => kv'.1 = k) ≠ []) :
    lastVal (kv :: rest) k = lastVal rest k := by
  unfold lastVal
  rw [List.filter_cons]
  by_cases hk : kv.1 = k
  · rw [if_pos (by simp [hk]), getLast?_cons_ne_nil kv _ h]
  · rw [if_neg (by simp [hk])]

/-- The last binding of a key when the tail binds it nowhere. -/
theorem lastVal_cons_of_none (kv : String × PVal) (rest : List (String × PVal))
    (k : String) (h : rest.filter (fun kv' => kv'.1 = k) = []) :
    lastVal (kv :: rest) k = if kv.1 = k then some kv.2 else none := by
  unfold lastVal
  rw [List.filter_cons]
  by_cases hk : kv.1 = k
  · rw [if_pos (by simp [hk]), h, if_pos hk]
    rfl
  · rw [if_neg (by simp [hk]), h, if_neg hk]
    rfl

/-- Model of `processVal` on `first_name`/`last_name` (keys hitting no special
branch) lower-cases and strips. -/
theorem processVal_name (k : String) (s : String)
    (h : k ≠ "hmo_name" ∧ k ≠ "membership_tier" ∧ k ≠ "gender" ∧
      k ≠ "birth_year" ∧ k ≠ "id_number" ∧ k ≠ "hmo_card_number") :
    processVal k (.str s) = .str (pyLower (pyStrip s)) := by
  obtain ⟨h1, h2, h3, h4, h5, h6⟩ := h
  unfold processVal
  simp [h1, h2, h3, h4, h5, h6]

/-- The `first_name` slot after the whole patch loop, when the patch's
last `first_name` binding is the string `v`. -/
theorem applyPatch_first_name :
    ∀ (patch : List (String × PVal)) (d : PData) (v : String),
      lastVal patch "first_name" = some (.str v) →
      (applyPatch d patch).first_name = .str (pyLower (pyStrip v))
  | [], _, v, h => by simp [lastVal] at h
  | kv :: rest, d, v, h => by
    by_cases hrest : rest.filter (fun kv' => kv'.1 = "first_name") = []
    · rw [lastVal_cons_of_none kv rest _ hrest] at h
      by_cases hk : kv.1 = "first_name"
      · rw [if_pos hk] at h
        injection h with h2
        rw [applyPatch_cons]
        rw [applyPatch_preserves_first_name rest (patchStep d kv)
          (fun kv' hkv' => by
            intro hbad
            exact absurd hrest (by
              apply List.ne_nil_of_mem (a := kv')
              rw [List.mem_filter]
              exact ⟨hkv', by simp [hbad]⟩))]
        unfold patchStep
        rw [h2]
        rw [if_neg (by simp), hk]
        rw [processVal_name _ _ (by simp)]
        unfold setKey
        rw [if_pos rfl]
      · rw [if_neg hk] at h
        exact absurd h (by simp)
    · rw [lastVal_cons_of_rest kv rest _ hrest] at h
      rw [applyPatch_cons]
      exact applyPatch_first_name rest (patchStep d kv) v h

/-- The `last_name` slot after the whole patch loop, when the patch's
last `last_name` binding is the string `w`. -/
theorem applyPatch_last_name :
    ∀ (patch : List (String × PVal)) (d : PData) (w : String),
      lastVal patch "last_name" = some (.str w) →
      (applyPatch d patch).last_name = .str (pyLower (pyStrip w))
  | [], _, w, h => by simp [lastVal] at h
  | kv :: rest, d, w, h => by
    by_cases hrest : rest.filter (fun kv' => kv'.1 = "last_name") = []
    · rw [lastVal_cons_of_none kv rest _ hrest] at h
      by_cases hk : kv.1 = "last_name"
      · rw [if_pos hk] at h
        injection h with h2
        rw [applyPatch_cons]
        rw [applyPatch_preserves_last_name rest (patchStep d kv)
          (fun kv' hkv' => by
            intro hbad
            exact absurd hrest (by
              apply List.ne_nil_of_mem (a := kv')
              rw [List.mem_filter]
              exact ⟨hkv', by simp [hbad]⟩))]
        unfold patchStep
        rw [h2]
        rw [if_neg (by simp), hk]
        rw [processVal_name _ _ (by simp)]
        unfold setKey
        rw [if_neg (by simp), if_pos rfl]
      · rw [if_neg hk] at h
        exact absurd h (by simp)
    · rw [lastVal_cons_of_rest kv rest _ hrest] at h
      rw [applyPatch_cons]
      exact applyPatch_last_name rest (patchStep d kv) w h

/-- Successful construction reads the name fields straight from their
slots. -/
theorem parseData_name_fields (currentYear : Int) (d : PData) (p : UserProfile)
    (hp : parseData currentYear d = some p) :
    parseOptStr d.first_name = some p.first_name ∧
    parseOptStr d.last_name = some p.last_name := by
  unfold parseData at hp
  by_cases hex : d.extra ≠ []
  · simp [hex] at hp
  · simp only [hex, if_false, Option.bind_eq_bind, Option.bind_eq_some] at hp
    obtain ⟨fn, hfn, ln, hln, idn, _, g, _, by_, _, hn, _, hcn, _, mt, _, hpure⟩ := hp
    cases hpure
    exact ⟨hfn, hln⟩

end PatchLemmas

/-- C10: every string value a patch stores into the merged profile is
stripped of surrounding whitespace and lower-cased first — including the
free-text fields `first_name` and `last_name`, which hit none of the
enumerated canonicalization branches. -/
theorem mergePatch_lowercases_names (currentYear : Int) (profile : UserProfile)
    (patch : List (String × PVal)) (p' : UserProfile) (v w : String)
    (hp : parseData currentYear (applyPatch (dumpProfile profile) patch) = some p') :
    mergePatch currentYear profile patch = p' ∧
    (lastVal patch "first_name" = some (.str v) →
      p'.first_name = some (pyLower (pyStrip v))) ∧
    (lastVal patch "last_name" = some (.str w) →
      p'.last_name = some (pyLower (pyStrip w))) := by
  obtain ⟨hfn, hln⟩ := parseData_name_fields currentYear _ p' hp
  refine ⟨by unfold mergePatch; rw [hp], fun hv => ?_, fun hw => ?_⟩
  · rw [applyPatch_first_name patch _ v hv] at hfn
    simp only [parseOptStr, Option.some_inj] at hfn
    exact hfn.symm
  · rw [applyPatch_last_name patch _ w hw] at hln
    simp only [parseOptStr, Option.some_inj] at hln
    exact hln.symm

/-- Witness for C10: `" DaNa "` is stored as `"dana"` and `"C "` as
`"c"`. -/
theorem mergePatch_lowercases_names_witness :
    mergePatch 2026 {} [("first_name", .str " DaNa "), ("last_name", .str "C ")] =
      { first_name := some "dana", last_name := some "c" } ∧
    (lastVal [("first_name", .str " DaNa "), ("last_name", .str "C ")] "first_name" =
        some (.str " DaNa ") →
      ({ first_name := some "dana", last_name := some "c" } : UserProfile).first_name =
        some (pyLower (pyStrip " DaNa "))) ∧
    (lastVal [("first_name", .str " DaNa "), ("last_name", .str "C ")] "last_name" =
        some (.str "C ") →
      ({ first_name := some "dana", last_name := some "c" } : UserProfile).last_name =
        some (pyLower (pyStrip "C "))) :=
  mergePatch_lowercases_names 2026 {}
    [("first_name", .str " DaNa "), ("last_name", .str "C ")]
    { first_name := some "dana", last_name := some "c" } " DaNa " "C " (by decide)

section HistoryLemmas

/-- Model of `flatMap` over a cons, as a rewrite rule. -/
theorem flatMap_cons_eq {α β : Type} (a : α) (l : List α) (f : α → List β) :
    (a :: l).flatMap f = f a ++ l.flatMap f := rfl

/-- Model of `enumFrom` over a cons, as a rewrite rule. -/
theorem enumFrom_cons_eq {α : Type} (n : Nat) (a : α) (l : List α) :
    HtmlKB.enumFrom n (a :: l) = (n, a) :: HtmlKB.enumFrom (n + 1) l := rfl

/-- Summed content length is invariant under retagging. -/
theorem totalChars_map {α β : Type} (g : α → β) (content : β → String) (l : List α) :
    totalChars content (l.map g) = totalChars (fun a => content (g a)) l := by
  unfold totalChars
  rw [List.map_map]
  rfl

/-- The trim loop only removes messages from the front. -/
theorem trimLoop_suffix {α : Type} (content : α → String) (maxC : Nat) :
    ∀ l : List α, trimLoop content maxC l <:+ l
  | [] => List.suffix_refl []
  | m :: rest => by
    unfold trimLoop
    split_ifs with h
    · exact (trimLoop_suffix content maxC rest).trans (List.suffix_cons m rest)
    · exact List.suffix_refl _

/-- The trim loop ends within the character budget. -/
theorem trimLoop_le {α : Type} (content : α → String) (maxC : Nat) :
    ∀ l : List α, totalChars content (trimLoop content maxC l) ≤ maxC
  | [] => by simp [trimLoop, totalChars]
  | m :: rest => by
    unfold trimLoop
    split_ifs with h
    · exact trimLoop_le content maxC rest
    · omega

/-- Trimming commutes with erasing the provenance tags. -/
theorem trimLoop_map {α β : Type} (g : α → β) (content : β → String) (maxC : Nat) :
    ∀ l : List α,
      trimLoop content maxC (l.map g) = (trimLoop (fun a => content (g a)) maxC l).map g
  | [] => rfl
  | m :: rest => by
    unfold trimLoop
    have hc : totalChars content (g m :: List.map g rest)
        = totalChars (fun a => content (g a)) (m :: rest) := by
      rw [← List.map_cons]
      exact totalChars_map g content (m :: rest)
    simp only [List.map_cons, hc]
    split_ifs with h
    · exact trimLoop_map g content maxC rest
    · rfl

/-- A non-empty trim result keeps the last message of the input. -/
theorem trimLoop_getLast? {α : Type} (content : α → String) (maxC : Nat) :
    ∀ l : List α, trimLoop content maxC l ≠ [] →
      (trimLoop content maxC l).getLast? = l.getLast?
  | [], h => absurd rfl h
  | m :: rest, h => by
    unfold trimLoop at h ⊢
    split_ifs at h ⊢ with hc
    · have hrest : rest ≠ [] := by
        intro hr
        rw [hr] at h
        simp [trimLoop] at h
      rw [trimLoop_getLast? content maxC rest h, getLast?_cons_ne_nil m rest hrest]
    · rfl

/-- The tagged flattening of a turn suffix is empty exactly when no turn
in it contributes a message. -/
theorem tagged_eq_nil_iff (ts : List Turn) : ∀ n : Nat,
    ((HtmlKB.enumFrom n ts).flatMap (fun it => (turnMsgs it.2).map (fun m => (it.1, m))) = [])
    ↔ ((HtmlKB.enumFrom n ts).filter (fun it => !(turnMsgs it.2).isEmpty) = []) := by
  induction ts with
  | nil => intro n; simp [HtmlKB.enumFrom]
  | cons t ts ih =>
    intro n
    rw [enumFrom_cons_eq, flatMap_cons_eq, List.filter_cons, List.append_eq_nil,
      List.map_eq_nil_iff]
    by_cases hmt : turnMsgs t = []
    · simp only [hmt, true_and, List.isEmpty_nil, Bool.not_true]
      rw [if_neg (by simp)]
      exact ih (n + 1)
    · simp only [hmt, false_and, false_iff]
      rw [if_pos (by simp [List.isEmpty_iff, hmt])]
      simp

/-- The last tagged message of the flattening carries the index of the
last contributing turn. -/
theorem tagged_getLast_fst (ts : List Turn) : ∀ n : Nat,
    (((HtmlKB.enumFrom n ts).flatMap
        (fun it => (turnMsgs it.2).map (fun m => (it.1, m)))).getLast?).map (fun x => x.1)
    = (((HtmlKB.enumFrom n ts).filter (fun it => !(turnMsgs it.2).isEmpty)).getLast?).map
        (fun it => it.1) := by
  induction ts with
  | nil => intro n; simp [HtmlKB.enumFrom]
  | cons t ts ih =>
    intro n
    rw [enumFrom_cons_eq, flatMap_cons_eq, List.filter_cons]
    by_cases hB : (HtmlKB.enumFrom (n + 1) ts).flatMap
        (fun it => (turnMsgs it.2).map (fun m => (it.1, m))) = []
    · have hF : (HtmlKB.enumFrom (n + 1) ts).filter (fun it => !(turnMsgs it.2).isEmpty) = [] :=
        (tagged_eq_nil_iff ts (n + 1)).mp hB
      rw [hB, List.append_nil, hF]
      by_cases hmt : turnMsgs t = []
      · rw [hmt]
        rw [if_neg (by simp)]
        rfl
      · rw [if_pos (by simp [List.isEmpty_iff, hmt])]
        rw [List.getLast?_map]
        cases hlast : (turnMsgs t).getLast? with
        | none => exact absurd (List.getLast?_eq_none_iff.mp hlast) hmt
        | some m => rfl
    · have hF : (HtmlKB.enumFrom (n + 1) ts).filter (fun it => !(turnMsgs it.2).isEmpty) ≠ [] :=
        fun he => hB ((tagged_eq_nil_iff ts (n + 1)).mpr he)
      rw [List.getLast?_append_of_ne_nil _ hB, ih (n + 1)]
      by_cases hmt : turnMsgs t = []
      · rw [if_neg (by simp [hmt])]
      · rw [if_pos (by simp [List.isEmpty_iff, hmt]), getLast?_cons_ne_nil _ _ hF]

/-- Erasing the tags recovers the source's flattened message list. -/
theorem flattenTurns_eq_map_snd (turns : List Turn) :
    flattenTurns turns = (flattenTagged turns).map (fun x => x.2) := by
  unfold flattenTurns flattenTagged
  suffices h : ∀ n : Nat, turns.flatMap turnMsgs =
      ((HtmlKB.enumFrom n turns).flatMap
        (fun it => (turnMsgs it.2).map (fun m => (it.1, m)))).map (fun x => x.2) from h 0
  induction turns with
  | nil => intro n; rfl
  | cons t ts ih =>
    intro n
    rw [enumFrom_cons_eq, flatMap_cons_eq, flatMap_cons_eq, List.map_append, List.map_map]
    have : ((fun x : Nat × String × String => x.2) ∘ fun m => (n, m)) = id := rfl
    rw [this, List.map_id, ih (n + 1)]

end HistoryLemmas

/-- C8, the claim as stated is false: in a history whose most recent Turn
has neither user nor assistant text, the trimmed message list is
non-empty but its last message originates from Turn 0, not from the most
recent Turn (index 1). -/
theorem historyTrim_last_turn_counterexample :
    historyToMessages [{ user_text := some "hi", assistant_text := some "hello" }, {}] 100 =
      [("user", "hi"), ("assistant", "hello")] ∧
    historyToMessages [{ user_text := some "hi", assistant_text := some "hello" }, {}] 100 ≠ [] ∧
    (trimLoop (fun m => m.2.2) 100
        (flattenTagged [{ user_text := some "hi", assistant_text := some "hello" }, {}])).getLast?.map
        (fun x => x.1) = some 0 ∧
    ([{ user_text := some "hi", assistant_text := some "hello" }, ({} : Turn)] : List Turn).length - 1 = 1 ∧
    (0 : Nat) ≠ 1 := by
  refine ⟨by decide, by decide, by decide, by decide, by decide⟩

/-- C8 (amended): each Turn flattens to at most two messages, user before
assistant; trimming removes messages only from the front and lands within
the budget; and the last trimmed message (if any) originates from the
most recent Turn that contributes a message (a Turn with neither text
contributes none and is skipped). -/
theorem historyTrim_properties (turns : List Turn) (maxChars : Nat) (t : Turn) :
    ((turnMsgs t).map Prod.fst = [] ∨ (turnMsgs t).map Prod.fst = ["user"] ∨
      (turnMsgs t).map Prod.fst = ["assistant"] ∨
      (turnMsgs t).map Prod.fst = ["user", "assistant"]) ∧
    historyToMessages turns maxChars <:+ flattenTurns turns ∧
    totalChars (fun m => m.2) (historyToMessages turns maxChars) ≤ maxChars ∧
    (historyToMessages turns maxChars ≠ [] →
      (trimLoop (fun m => m.2.2) maxChars (flattenTagged turns)).getLast?.map (fun x => x.1)
        = lastContributing turns) := by
  refine ⟨?_, trimLoop_suffix _ maxChars _, trimLoop_le _ maxChars _, fun hne => ?_⟩
  · unfold turnMsgs
    split_ifs <;> simp
  · have hmap : historyToMessages turns maxChars =
        (trimLoop (fun m => m.2.2) maxChars (flattenTagged turns)).map (fun x => x.2) := by
      unfold historyToMessages
      rw [flattenTurns_eq_map_snd, trimLoop_map]
    have htag_ne : trimLoop (fun m => m.2.2) maxChars (flattenTagged turns) ≠ [] := by
      intro he
      rw [hmap, he] at hne
      exact hne rfl
    rw [trimLoop_getLast? _ maxChars _ htag_ne]
    unfold flattenTagged lastContributing
    exact tagged_getLast_fst turns 0

/-- Witness for C8: a two-turn history under a tight budget keeps only the
last message, which originates from the (contributing) most recent Turn. -/
theorem historyTrim_properties_witness :
    ((turnMsgs { user_text := some "hi", assistant_text := some "yo" }).map Prod.fst = [] ∨
      (turnMsgs { user_text := some "hi", assistant_text := some "yo" }).map Prod.fst = ["user"] ∨
      (turnMsgs { user_text := some "hi", assistant_text := some "yo" }).map Prod.fst = ["assistant"] ∨
      (turnMsgs { user_text := some "hi", assistant_text := some "yo" }).map Prod.fst = ["user", "assistant"]) ∧
    historyToMessages [{ user_text := some "hi", assistant_text := some "yo" }] 3 <:+
      flattenTurns [{ user_text := some "hi", assistant_text := some "yo" }] ∧
    totalChars (fun m => m.2)
      (historyToMessages [{ user_text := some "hi", assistant_text := some "yo" }] 3) ≤ 3 ∧
    (historyToMessages [{ user_text := some "hi", assistant_text := some "yo" }] 3 ≠ [] →
      (trimLoop (fun m => m.2.2) 3
          (flattenTagged [{ user_text := some "hi", assistant_text := some "yo" }])).getLast?.map
          (fun x => x.1)
        = lastContributing [{ user_text := some "hi", assistant_text := some "yo" }]) :=
  historyTrim_properties [{ user_text := some "hi", assistant_text := some "yo" }] 3
    { user_text := some "hi", assistant_text := some "yo" }

section SearchLemmas

open HtmlKB

/-- The hmo-bias factor keeps a positive base score positive. -/
theorem scoreChunk_pos (s : ℚ) (ch : KBChunk) (hmo : Option HMO) (tier : Option Tier)
    (hs : 0 < s) : 0 < scoreChunk s ch hmo tier := by
  unfold scoreChunk
  have h34 : 0 < s * (3 / 4 : ℚ) := by positivity
  rcases hmo with _ | h <;> rcases hch : ch.hmo with _ | chh <;>
    rcases tier with _ | t <;> simp only [hch] <;> (try split_ifs) <;> positivity

/-- With the same positive base score and the same chunk HMO, the chunk
listing the requested tier scores strictly higher. -/
theorem scoreChunk_tier_lt (s : ℚ) (cm co : KBChunk) (hmo : Option HMO) (t : Tier)
    (hs : 0 < s) (hhmo : cm.hmo = co.hmo)
    (hin : t.val ∈ cm.tier_tags) (hout : t.val ∉ co.tier_tags) :
    scoreChunk s co hmo (some t) < scoreChunk s cm hmo (some t) := by
  unfold scoreChunk
  rw [hhmo]
  rcases hmo with _ | h <;> rcases hch : co.hmo with _ | chh <;>
    simp only [if_pos, if_neg, hin, hout, if_true, if_false] <;>
    (try split_ifs) <;> nlinarith

/-- A `(similarity, chunk)` pair read off aligned positions is in the
scored list. -/
theorem mem_scoredList (sims : List ℚ) (chunks : List KBChunk)
    (hmo : Option HMO) (tier : Option Tier) (i : Nat) (s : ℚ) (ch : KBChunk)
    (hsi : sims.get? i = some s) (hci : chunks.get? i = some ch) :
    (scoreChunk s ch hmo tier, ch) ∈ scoredList sims chunks hmo tier := by
  have hz : (sims.zip chunks).get? i = some (s, ch) :=
    (List.get?_zip_eq_some sims chunks (s, ch) i).mpr ⟨hsi, hci⟩
  exact List.mem_map_of_mem _ (List.get?_mem hz)

/-- A present entry's rank is a valid position. -/
theorem idxOf_lt_length (e : ℚ × KBChunk) :
    ∀ l : List (ℚ × KBChunk), e ∈ l → idxOf e l < l.length
  | x :: xs, h => by
    unfold idxOf
    split_ifs with hx
    · simp
    · have he : e ∈ xs := by
        rcases List.mem_cons.mp h with h1 | h2
        · exact absurd h1.symm hx
        · exact h2
      have := idxOf_lt_length e xs he
      simp only [List.length_cons]
      omega

/-- The entry at its own rank is the entry itself. -/
theorem get?_idxOf (e : ℚ × KBChunk) :
    ∀ l : List (ℚ × KBChunk), e ∈ l → l.get? (idxOf e l) = some e
  | x :: xs, h => by
    unfold idxOf
    split_ifs with hx
    · rw [hx]
      rfl
    · have he : e ∈ xs := by
        rcases List.mem_cons.mp h with h1 | h2
        · exact absurd h1.symm hx
        · exact h2
      simp only [List.get?_cons_succ]
      exact get?_idxOf e xs he

end SearchLemmas

/-- C6, the claim as stated is false: cosine similarity can be negative
(for `qv = [1.0]`, `vec = [-1.0]` the dot product is `-1` and both norms
are exactly `1`, so `_cos` returns exactly `-1.0`); multiplying a
negative score by `1.08` lowers it, so with base score `-1` the search
ranks the tier-matching chunk BELOW the otherwise-identical chunk without
the tier. -/
theorem searchScored_negative_demotes :
    HtmlKB.dotProd [1] [-1] = -1 ∧ HtmlKB.normSq [1] = 1 ∧ HtmlKB.normSq [-1] = 1 ∧
    HtmlKB.searchScored [-1, -1]
      [{ text := "x", source_uri := "u", hmo := none, tier_tags := ["זהב"],
         sect := none, service := none, kind := "benefit" },
       { text := "x", source_uri := "u", hmo := none, tier_tags := [],
         sect := none, service := none, kind := "benefit" }]
      none (some Tier.gold) 2 =
      [{ text := "x", source_uri := "u", hmo := none, tier_tags := [],
         sect := none, service := none, kind := "benefit" },
       { text := "x", source_uri := "u", hmo := none, tier_tags := ["זהב"],
         sect := none, service := none, kind := "benefit" }] ∧
    Tier.gold.val ∈
      ({ text := "x", source_uri := "u", hmo := none, tier_tags := ["זהב"],
         sect := none, service := none, kind := "benefit" } : KBChunk).tier_tags ∧
    Tier.gold.val ∉
      ({ text := "x", source_uri := "u", hmo := none, tier_tags := [],
         sect := none, service := none, kind := "benefit" } : KBChunk).tier_tags := by
  refine ⟨by norm_num [HtmlKB.dotProd], by norm_num [HtmlKB.normSq],
    by norm_num [HtmlKB.normSq], ?_, by decide, by decide⟩
  norm_num [HtmlKB.searchScored, HtmlKB.sortedScored, HtmlKB.scoredList,
    HtmlKB.scoreChunk, List.insertionSort, List.orderedInsert, HtmlKB.scoreGE, Tier.val]
  intro h
  exact absurd h (by simp)

/-- C6 (amended): whenever the base cosine similarity shared by the two
chunks is positive, the chunk listing the requested tier is never ranked
below the otherwise-identical chunk that does not list it: both scored
entries appear in the sorted list and the matching one strictly earlier. -/
theorem searchScored_tier_no_demotion (sims : List ℚ) (chunks : List KBChunk)
    (hmo : Option HMO) (t : Tier) (s : ℚ) (i j : Nat) (cm co : KBChunk)
    (hsi : sims.get? i = some s) (hci : chunks.get? i = some cm)
    (hsj : sims.get? j = some s) (hcj : chunks.get? j = some co)
    (hs : 0 < s)
    (htext : cm.text = co.text) (huri : cm.source_uri = co.source_uri)
    (hhmo : cm.hmo = co.hmo) (hsect : cm.sect = co.sect)
    (hserv : cm.service = co.service) (hkind : cm.kind = co.kind)
    (hin : t.val ∈ cm.tier_tags) (hout : t.val ∉ co.tier_tags) :
    (HtmlKB.scoreChunk s cm hmo (some t), cm) ∈
      HtmlKB.sortedScored sims chunks hmo (some t) ∧
    (HtmlKB.scoreChunk s co hmo (some t), co) ∈
      HtmlKB.sortedScored sims chunks hmo (some t) ∧
    HtmlKB.idxOf (HtmlKB.scoreChunk s cm hmo (some t), cm)
        (HtmlKB.sortedScored sims chunks hmo (some t)) <
      HtmlKB.idxOf (HtmlKB.scoreChunk s co hmo (some t), co)
        (HtmlKB.sortedScored sims chunks hmo (some t)) := by
  have hscore : HtmlKB.scoreChunk s co hmo (some t) < HtmlKB.scoreChunk s cm hmo (some t) :=
    scoreChunk_tier_lt s cm co hmo t hs hhmo hin hout
  have hmem_cm : (HtmlKB.scoreChunk s cm hmo (some t), cm) ∈
      HtmlKB.sortedScored sims chunks hmo (some t) := by
    unfold HtmlKB.sortedScored
    exact (List.mem_insertionSort _).mpr
      (mem_scoredList sims chunks hmo (some t) i s cm hsi hci)
  have hmem_co : (HtmlKB.scoreChunk s co hmo (some t), co) ∈
      HtmlKB.sortedScored sims chunks hmo (some t) := by
    unfold HtmlKB.sortedScored
    exact (List.mem_insertionSort _).mpr
      (mem_scoredList sims chunks hmo (some t) j s co hsj hcj)
  refine ⟨hmem_cm, hmem_co, ?_⟩
  have hsorted : (HtmlKB.sortedScored sims chunks hmo (some t)).Sorted HtmlKB.scoreGE :=
    List.sorted_insertionSort HtmlKB.scoreGE _
  set L := HtmlKB.sortedScored sims chunks hmo (some t) with hL
  have hq : HtmlKB.idxOf (HtmlKB.scoreChunk s cm hmo (some t), cm) L < L.length :=
    idxOf_lt_length _ L hmem_cm
  have hp : HtmlKB.idxOf (HtmlKB.scoreChunk s co hmo (some t), co) L < L.length :=
    idxOf_lt_length _ L hmem_co
  have hgq : L.get ⟨HtmlKB.idxOf (HtmlKB.scoreChunk s cm hmo (some t), cm) L, hq⟩
      = (HtmlKB.scoreChunk s cm hmo (some t), cm) := by
    have h1 := get?_idxOf (HtmlKB.scoreChunk s cm hmo (some t), cm) L hmem_cm
    rw [List.get?_eq_get hq] at h1
    exact Option.some_inj.mp h1
  have hgp : L.get ⟨HtmlKB.idxOf (HtmlKB.scoreChunk s co hmo (some t), co) L, hp⟩
      = (HtmlKB.scoreChunk s co hmo (some t), co) := by
    have h1 := get?_idxOf (HtmlKB.scoreChunk s co hmo (some t), co) L hmem_co
    rw [List.get?_eq_get hp] at h1
    exact Option.some_inj.mp h1
  by_contra hle
  push_neg at hle
  rcases lt_or_eq_of_le hle with hlt | heq
  · have hrel := hsorted.rel_get_of_lt
      (a := ⟨HtmlKB.idxOf (HtmlKB.scoreChunk s co hmo (some t), co) L, hp⟩)
      (b := ⟨HtmlKB.idxOf (HtmlKB.scoreChunk s cm hmo (some t), cm) L, hq⟩) hlt
    rw [hgp, hgq] at hrel
    exact absurd hrel (not_le.mpr hscore)
  · have h1 := get?_idxOf (HtmlKB.scoreChunk s cm hmo (some t), cm) L hmem_cm
    have h2 := get?_idxOf (HtmlKB.scoreChunk s co hmo (some t), co) L hmem_co
    rw [heq, h1] at h2
    have : HtmlKB.scoreChunk s cm hmo (some t) = HtmlKB.scoreChunk s co hmo (some t) :=
      congrArg Prod.fst (Option.some_inj.mp h2)
    exact absurd this (ne_of_gt hscore)

/-- Witness for C6: with base score `2`, the gold-tagged chunk sorts
strictly before its untagged twin. -/
theorem searchScored_tier_no_demotion_witness :
    (HtmlKB.scoreChunk 2
        { text := "x", source_uri := "u", hmo := none, tier_tags := ["זהב"],
          sect := none, service := none, kind := "benefit" } none (some Tier.gold),
      ({ text := "x", source_uri := "u", hmo := none, tier_tags := ["זהב"],
         sect := none, service := none, kind := "benefit" } : KBChunk)) ∈
      HtmlKB.sortedScored [2, 2]
        [{ text := "x", source_uri := "u", hmo := none, tier_tags := ["זהב"],
           sect := none, service := none, kind := "benefit" },
         { text := "x", source_uri := "u", hmo := none, tier_tags := [],
           sect := none, service := none, kind := "benefit" }] none (some Tier.gold) ∧
    (HtmlKB.scoreChunk 2
        { text := "x", source_uri := "u", hmo := none, tier_tags := [],
          sect := none, service := none, kind := "benefit" } none (some Tier.gold),
      ({ text := "x", source_uri := "u", hmo := none, tier_tags := [],
         sect := none, service := none, kind := "benefit" } : KBChunk)) ∈
      HtmlKB.sortedScored [2, 2]
        [{ text := "x", source_uri := "u", hmo := none, tier_tags := ["זהב"],
           sect := none, service := none, kind := "benefit" },
         { text := "x", source_uri := "u", hmo := none, tier_tags := [],
           sect := none, service := none, kind := "benefit" }] none (some Tier.gold) ∧
    HtmlKB.idxOf
        (HtmlKB.scoreChunk 2
          { text := "x", source_uri := "u", hmo := none, tier_tags := ["זהב"],
            sect := none, service := none, kind := "benefit" } none (some Tier.gold),
         { text := "x", source_uri := "u", hmo := none, tier_tags := ["זהב"],
           sect := none, service := none, kind := "benefit" })
        (HtmlKB.sortedScored [2, 2]
          [{ text := "x", source_uri := "u", hmo := none, tier_tags := ["זהב"],
             sect := none, service := none, kind := "benefit" },
           { text := "x", source_uri := "u", hmo := none, tier_tags := [],
             sect := none, service := none, kind := "benefit" }] none (some Tier.gold)) <
      HtmlKB.idxOf
        (HtmlKB.scoreChunk 2
          { text := "x", source_uri := "u", hmo := none, tier_tags := [],
            sect := none, service := none, kind := "benefit" } none (some Tier.gold),
         { text := "x", source_uri := "u", hmo := none, tier_tags := [],
           sect := none, service := none, kind := "benefit" })
        (HtmlKB.sortedScored [2, 2]
          [{ text := "x", source_uri := "u", hmo := none, tier_tags := ["זהב"],
             sect := none, service := none, kind := "benefit" },
           { text := "x", source_uri := "u", hmo := none, tier_tags := [],
             sect := none, service := none, kind := "benefit" }] none (some Tier.gold)) :=
  searchScored_tier_no_demotion [2, 2]
    [{ text := "x", source_uri := "u", hmo := none, tier_tags := ["זהב"],
       sect := none, service := none, kind := "benefit" },
     { text := "x", source_uri := "u", hmo := none, tier_tags := [],
       sect := none, service := none, kind := "benefit" }]
    none Tier.gold 2 0 1
    { text := "x", source_uri := "u", hmo := none, tier_tags := ["זהב"],
      sect := none, service := none, kind := "benefit" }
    { text := "x", source_uri := "u", hmo := none, tier_tags := [],
      sect := none, service := none, kind := "benefit" }
    rfl rfl rfl rfl (by norm_num) rfl rfl rfl rfl rfl rfl (by decide) (by decide)

/-- C7: when the LLM output of an INFO turn is not parseable JSON,
`parse_llm_json` substitutes the safe fallback (the fixed error message,
an empty `profile_patch`, status `ASKING`); the turn then returns the
fallback text, keeps the suggested phase at `INFO_COLLECTION`, returns
the profile unchanged (the empty patch merges to the same validly
constructed profile) and appends exactly one Turn to the history. -/
theorem turnInfo_parse_failure (currentYear : Int) (locale : Locale)
    (profile : UserProfile) (turns : List Turn) (userText : String)
    (hvalid : parseData currentYear (dumpProfile profile) = some profile) :
    parseLlmJson none = fallbackJson ∧
    (turnInfo currentYear locale profile turns userText (.ok none)).1.assistant_text
      = fallbackMsg ∧
    (turnInfo currentYear locale profile turns userText (.ok none)).1.suggested_phase
      = Phase.infoCollection ∧
    (turnInfo currentYear locale profile turns userText (.ok none)).1.user_profile
      = profile ∧
    (turnInfo currentYear locale profile turns userText (.ok none)).2
      = turns ++ [{ user_text := some userText, assistant_text := some fallbackMsg }] := by
  have hmerge : mergePatch currentYear profile [] = profile := by
    unfold mergePatch applyPatch
    simp only [List.foldl_nil]
    rw [hvalid]
  exact ⟨rfl, rfl, rfl, hmerge, rfl⟩

/-- Witness for C7: the parse-failure turn on the freshly constructed
empty profile. -/
theorem turnInfo_parse_failure_witness :
    parseLlmJson none = fallbackJson ∧
    (turnInfo 2026 Locale.he {} [] "שלום" (.ok none)).1.assistant_text = fallbackMsg ∧
    (turnInfo 2026 Locale.he {} [] "שלום" (.ok none)).1.suggested_phase
      = Phase.infoCollection ∧
    (turnInfo 2026 Locale.he {} [] "שלום" (.ok none)).1.user_profile = {} ∧
    (turnInfo 2026 Locale.he {} [] "שלום" (.ok none)).2
      = [] ++ [{ user_text := some "שלום", assistant_text := some fallbackMsg }] :=
  turnInfo_parse_failure 2026 Locale.he {} [] "שלום" (by decide)

/-- Witness for C5: three failing calls with base `1/2` sleep
`[1/2, 1, 2]` and surface the API error itself. -/
theorem retryLoop_exhaustion_witness :
    retryLoop (fun _ => (Except.error .apiError : Except TransientError Nat)) 3 (1 / 2) =
      (.error (.transient .apiError),
       (List.range 3).map (fun k => (1 / 2 : ℚ) * 2 ^ k)) :=
  retryLoop_exhaustion (fun _ => Except.error .apiError) (fun _ => .apiError) 3 (1 / 2)
    (fun _ => rfl)

end KPMGAss
